import Mathlib

/-!
Shallow embedding of `Timekeeping::Scheduler` (rhymu8354/Timekeeping).

The repository contains two revisions of `Scheduler.cpp`:

* `src/src/Scheduler.cpp` — cancellation tracked by a `std::set<int>`
  (`canceledCallbacks`); the worker invokes the callback while still
  holding the recursive mutex, and the draining branch pops the queue
  without erasing the token from the set.  Embedded below in namespace
  `SchedulerSet`.

* `src/unnamed/part_000` (another revision of `Scheduler.cpp`) —
  cancellation tracked by a `std::map<int,bool>` (`isCallbackCanceled`);
  the worker unlocks around the callback and erases the map entry in both
  the firing and the draining branches.  Embedded below in namespace
  `SchedulerMap`.

Time values (`double due`, `Clock::GetCurrentTime`) are modelled as exact
rationals.  Callbacks (`std::function<void()>`) are modelled as opaque
identifiers (`Nat`); "invoking" a callback is modelled as emitting an
event carrying that identifier.  The mutex is modelled by recording, in
the worker's firing branch, the sequence of lock/unlock/invoke events the
C++ statement sequence performs, so that "was the callback invoked while
the lock was held" is a computable function of the emitted trace.
-/

/-- One scheduled registration, mirroring the anonymous-namespace
`ScheduledCallback` struct (`token`, `due`, `callback`). -/
structure ScheduledCallback where
  token : Int
  due : ℚ
  callback : Nat
deriving DecidableEq, Repr

/-- Model of `std::priority_queue<ScheduledCallback, vector, greater>`:
`top` returns an element with minimal `due` (the first such element of
the backing list; ties among equal `due` values are implementation
defined in C++). -/
def pqTop? : List ScheduledCallback → Option ScheduledCallback
  | [] => none
  | e :: rest =>
    match pqTop? rest with
    | none => some e
    | some e2 => if e.due ≤ e2.due then some e else some e2

/-- Model of `priority_queue::pop`: removes the element `pqTop?` returns. -/
def pqPop : List ScheduledCallback → List ScheduledCallback
  | [] => []
  | e :: rest =>
    match pqTop? rest with
    | none => rest
    | some e2 => if e.due ≤ e2.due then rest else e :: pqPop rest

/-- Model of `priority_queue::push`. -/
def pqPush (e : ScheduledCallback) (l : List ScheduledCallback) :
    List ScheduledCallback :=
  e :: l

/-- Events emitted by the worker's firing branch, in C++ statement order:
releasing the mutex, invoking a callback (identified by its handle),
re-acquiring the mutex. -/
inductive Event where
  | unlock : Event
  | lock : Event
  | invoke : Nat → Event
deriving DecidableEq, Repr

/-- Given the lock-held status on entry (the worker's loop body always
runs with the lock held), reports whether the lock was held at the first
`invoke` event of the trace, if any. -/
def heldAtInvoke : Bool → List Event → Option Bool
  | _, [] => none
  | _, Event.unlock :: rest => heldAtInvoke false rest
  | _, Event.lock :: rest => heldAtInvoke true rest
  | held, Event.invoke _ :: _ => some held

/-- What one pass of the worker's loop body does: exit (stop requested),
block indefinitely (empty pending set), block with a timeout in
milliseconds, fire the top entry (emitting its event trace), or drain a
canceled top entry. -/
inductive WorkerAct where
  | stopped : WorkerAct
  | idleWait : WorkerAct
  | waiting : Int → WorkerAct
  | fired : ScheduledCallback → List Event → WorkerAct
  | drained : ScheduledCallback → WorkerAct
deriving DecidableEq, Repr

namespace SchedulerSet

/-- The shared state of `Scheduler::Impl` in `src/src/Scheduler.cpp`
(the `std::set` revision): the clock pointer (modelled as the optional
time it currently reports), the pending priority queue, the stop flag,
the token counter, and the canceled-token set. -/
structure State where
  clock : Option ℚ
  scheduledCallbacks : List ScheduledCallback
  stopWorker : Bool
  nextToken : Int
  canceledCallbacks : List Int
deriving DecidableEq, Repr

/-- A freshly constructed scheduler: no clock, empty queue, worker
running, `nextToken = 1`, empty cancellation set. -/
def schedulerInit : State :=
  ⟨none, [], false, 1, []⟩

/-- `Scheduler::SetClock`: unconditionally overwrites the clock pointer. -/
def SetClock (s : State) (clock : Option ℚ) : State :=
  { s with clock := clock }

/-- `Scheduler::Schedule`: returns 0 and changes nothing when no clock is
set; otherwise allocates the next token, pushes the new entry, and
returns the token. -/
def Schedule (s : State) (callback : Nat) (due : ℚ) : State × Int :=
  match s.clock with
  | none => (s, 0)
  | some _ =>
    let token := s.nextToken
    ({ s with
        nextToken := s.nextToken + 1,
        scheduledCallbacks := pqPush ⟨token, due, callback⟩ s.scheduledCallbacks },
      token)

/-- `Scheduler::Cancel`: inserts the token into `canceledCallbacks`
(a `std::set::insert`, a no-op when already present). -/
def Cancel (s : State) (token : Int) : State :=
  if token ∈ s.canceledCallbacks then s
  else { s with canceledCallbacks := token :: s.canceledCallbacks }

/-- `Scheduler::WakeUp`: only notifies the condition variable; no shared
state changes. -/
def WakeUp (s : State) : State :=
  s

/-- One pass of `Scheduler::Impl::Worker`'s loop, evaluated under the
lock.  Returns `none` exactly when the code would dereference a null
clock pointer (`clock->GetCurrentTime()` with `clock == nullptr`). -/
def Worker (s : State) : Option (State × WorkerAct) :=
  if s.stopWorker then some (s, WorkerAct.stopped)
  else
    match pqTop? s.scheduledCallbacks with
    | none => some (s, WorkerAct.idleWait)
    | some e =>
      match s.clock with
      | none => none
      | some now =>
        let waitTimeSeconds := e.due - now
        if waitTimeSeconds > 0 ∧ e.token ∉ s.canceledCallbacks then
          some (s, WorkerAct.waiting ⌈waitTimeSeconds * 1000⌉)
        else if e.token ∉ s.canceledCallbacks then
          some ({ s with scheduledCallbacks := pqPop s.scheduledCallbacks },
            WorkerAct.fired e [Event.invoke e.callback])
        else
          some ({ s with scheduledCallbacks := pqPop s.scheduledCallbacks },
            WorkerAct.drained e)

end SchedulerSet

namespace SchedulerMap

/-- Model of `std::map<int,bool>::find`. -/
def mapFind : List (Int × Bool) → Int → Option Bool
  | [], _ => none
  | (k, v) :: rest, t => if k = t then some v else mapFind rest t

/-- Model of writing through `std::map<int,bool>::operator[]`: update the
existing entry, or insert a new one. -/
def mapInsert : List (Int × Bool) → Int → Bool → List (Int × Bool)
  | [], k, v => [(k, v)]
  | (k2, v2) :: rest, k, v =>
    if k2 = k then (k, v) :: rest else (k2, v2) :: mapInsert rest k v

/-- Model of `std::map<int,bool>::erase(key)`. -/
def mapErase (m : List (Int × Bool)) (k : Int) : List (Int × Bool) :=
  m.filter (fun p => p.1 ≠ k)

/-- Model of reading `std::map<int,bool>::operator[]`: returns the stored
value, default-inserting `false` when the key is absent (as the C++
`operator[]` does), together with the possibly grown map. -/
def mapIndex (m : List (Int × Bool)) (k : Int) : Bool × List (Int × Bool) :=
  match mapFind m k with
  | some v => (v, m)
  | none => (false, mapInsert m k false)

/-- The key set of the map model. -/
def mapKeys (m : List (Int × Bool)) : List Int :=
  m.map Prod.fst

/-- The shared state of `Scheduler::Impl` in `src/unnamed/part_000`
(the `std::map` revision of `Scheduler.cpp`). -/
structure State where
  clock : Option ℚ
  scheduledCallbacks : List ScheduledCallback
  stopWorker : Bool
  nextToken : Int
  isCallbackCanceled : List (Int × Bool)
deriving DecidableEq, Repr

/-- A freshly constructed scheduler: no clock, empty queue, worker
running, `nextToken = 1`, empty cancellation map. -/
def schedulerInit : State :=
  ⟨none, [], false, 1, []⟩

/-- `Scheduler::SetClock`: unconditionally overwrites the clock pointer. -/
def SetClock (s : State) (clock : Option ℚ) : State :=
  { s with clock := clock }

/-- `Scheduler::GetClock`. -/
def GetClock (s : State) : Option ℚ :=
  s.clock

/-- `Scheduler::Schedule` (map revision): returns 0 and changes nothing
when no clock is set; otherwise allocates the next token, records
`isCallbackCanceled[token] = false`, pushes the new entry, and returns
the token. -/
def Schedule (s : State) (callback : Nat) (due : ℚ) : State × Int :=
  match s.clock with
  | none => (s, 0)
  | some _ =>
    let token := s.nextToken
    ({ s with
        nextToken := s.nextToken + 1,
        isCallbackCanceled := mapInsert s.isCallbackCanceled token false,
        scheduledCallbacks := pqPush ⟨token, due, callback⟩ s.scheduledCallbacks },
      token)

/-- `Scheduler::Cancel` (map revision): sets the flag of an existing map
entry to `true`; does nothing when the token is not a key. -/
def Cancel (s : State) (token : Int) : State :=
  match mapFind s.isCallbackCanceled token with
  | some _ =>
    { s with isCallbackCanceled := mapInsert s.isCallbackCanceled token true }
  | none => s

/-- `Scheduler::WakeUp`: only notifies the condition variable; no shared
state changes. -/
def WakeUp (s : State) : State :=
  s

/-- One pass of `Scheduler::Impl::Worker`'s loop (map revision).  Reading
`isCallbackCanceled[token]` may default-insert the key; the firing branch
erases the map entry, pops the queue, unlocks, invokes, and relocks; the
draining branch erases the map entry and pops the queue.  Returns `none`
exactly when the code would dereference a null clock pointer. -/
def Worker (s : State) : Option (State × WorkerAct) :=
  if s.stopWorker then some (s, WorkerAct.stopped)
  else
    match pqTop? s.scheduledCallbacks with
    | none => some (s, WorkerAct.idleWait)
    | some e =>
      match s.clock with
      | none => none
      | some now =>
        let waitTimeSeconds := e.due - now
        let read := mapIndex s.isCallbackCanceled e.token
        let s1 := { s with isCallbackCanceled := read.2 }
        if waitTimeSeconds > 0 ∧ read.1 = false then
          some (s1, WorkerAct.waiting ⌈waitTimeSeconds * 1000⌉)
        else if read.1 = false then
          some ({ s1 with
              isCallbackCanceled := mapErase s1.isCallbackCanceled e.token,
              scheduledCallbacks := pqPop s1.scheduledCallbacks },
            WorkerAct.fired e [Event.unlock, Event.invoke e.callback, Event.lock])
        else
          some ({ s1 with
              isCallbackCanceled := mapErase s1.isCallbackCanceled e.token,
              scheduledCallbacks := pqPop s1.scheduledCallbacks },
            WorkerAct.drained e)

end SchedulerMap






namespace SchedulerSet

/-- A public operation on the scheduler, or one pass of the worker loop:
the events that can touch the shared state during the instance's
lifetime. -/
inductive Op where
  | schedule : Nat → ℚ → Op
  | cancel : Int → Op
  | wakeUp : Op
  | setClock : Option ℚ → Op
  | workerPass : Op
deriving DecidableEq, Repr

/-- Result of running a sequence of operations: the final state, the
values returned by the `Schedule` calls (in call order), and the entries
fired by worker passes (in firing order). -/
structure RunResult where
  final : State
  returns : List Int
  fired : List ScheduledCallback
deriving DecidableEq, Repr

/-- Runs a sequence of operations against the set-revision scheduler,
collecting `Schedule` return values and fired entries.  A worker pass
that would dereference a null clock is recorded as leaving the state
unchanged (the real program crashes there; see claim C9). -/
def run : State → List Op → RunResult
  | s, [] => ⟨s, [], []⟩
  | s, Op.schedule cb due :: rest =>
    let r := run (Schedule s cb due).1 rest
    ⟨r.final, (Schedule s cb due).2 :: r.returns, r.fired⟩
  | s, Op.cancel t :: rest => run (Cancel s t) rest
  | s, Op.wakeUp :: rest => run (WakeUp s) rest
  | s, Op.setClock c :: rest => run (SetClock s c) rest
  | s, Op.workerPass :: rest =>
    match Worker s with
    | none => run s rest
    | some (s2, WorkerAct.fired e _) =>
      let r := run s2 rest
      ⟨r.final, r.returns, e :: r.fired⟩
    | some (s2, _) => run s2 rest

end SchedulerSet

/-- The tokens of a list of pending entries. -/
def tokensOf (l : List ScheduledCallback) : List Int :=
  l.map ScheduledCallback.token

/-- Strong invariant for the map revision: pending tokens are below the
token counter and pairwise distinct, and the cancellation map's key set
is exactly the set of pending tokens. -/
def SchedulerMap.Inv (s : SchedulerMap.State) : Prop :=
  (∀ e ∈ s.scheduledCallbacks, e.token < s.nextToken) ∧
  (tokensOf s.scheduledCallbacks).Nodup ∧
  (∀ t : Int, t ∈ SchedulerMap.mapKeys s.isCallbackCanceled ↔
    t ∈ tokensOf s.scheduledCallbacks)

/-- States reachable from a freshly constructed map-revision scheduler
through the public operations and completed worker passes. -/
inductive SchedulerMap.Reachable : SchedulerMap.State → Prop where
  | init : SchedulerMap.Reachable SchedulerMap.schedulerInit
  | schedule (s : SchedulerMap.State) (callback : Nat) (due : ℚ) :
      SchedulerMap.Reachable s →
      SchedulerMap.Reachable (SchedulerMap.Schedule s callback due).1
  | cancel (s : SchedulerMap.State) (token : Int) :
      SchedulerMap.Reachable s →
      SchedulerMap.Reachable (SchedulerMap.Cancel s token)
  | wakeUp (s : SchedulerMap.State) :
      SchedulerMap.Reachable s →
      SchedulerMap.Reachable (SchedulerMap.WakeUp s)
  | setClock (s : SchedulerMap.State) (clock : Option ℚ) :
      SchedulerMap.Reachable s →
      SchedulerMap.Reachable (SchedulerMap.SetClock s clock)
  | workerPass (s s2 : SchedulerMap.State) (act : WorkerAct) :
      SchedulerMap.Reachable s → SchedulerMap.Worker s = some (s2, act) →
      SchedulerMap.Reachable s2

theorem pqTop_cons (e : ScheduledCallback) (rest : List ScheduledCallback) :
    ∃ e2, pqTop? (e :: rest) = some e2 := by
  simp only [pqTop?]
  cases pqTop? rest with
  | none => exact ⟨e, rfl⟩
  | some e2 =>
    by_cases h : e.due ≤ e2.due
    · exact ⟨e, by simp [h]⟩
    · exact ⟨e2, by simp [h]⟩

theorem pqTop_none_iff (l : List ScheduledCallback) :
    pqTop? l = none ↔ l = [] := by
  cases l with
  | nil => simp [pqTop?]
  | cons e rest =>
    obtain ⟨e2, h⟩ := pqTop_cons e rest
    simp [h]

theorem pqTop_mem {l : List ScheduledCallback} {e : ScheduledCallback}
    (h : pqTop? l = some e) : e ∈ l := by
  induction l generalizing e with
  | nil => simp [pqTop?] at h
  | cons a rest ih =>
    simp only [pqTop?] at h
    cases h2 : pqTop? rest with
    | none =>
      rw [h2] at h
      simp only [Option.some.injEq] at h
      simp [h]
    | some e2 =>
      rw [h2] at h
      by_cases hle : a.due ≤ e2.due
      · simp only [if_pos hle, Option.some.injEq] at h
        simp [h]
      · simp only [if_neg hle, Option.some.injEq] at h
        subst h
        exact List.mem_cons_of_mem a (ih h2)

theorem pqTop_min {l : List ScheduledCallback} {e : ScheduledCallback}
    (h : pqTop? l = some e) : ∀ x ∈ l, e.due ≤ x.due := by
  induction l generalizing e with
  | nil => simp [pqTop?] at h
  | cons a rest ih =>
    simp only [pqTop?] at h
    cases h2 : pqTop? rest with
    | none =>
      rw [h2] at h
      simp only [Option.some.injEq] at h
      rw [pqTop_none_iff] at h2
      subst h2
      subst h
      intro x hx
      simp at hx
      simp [hx]
    | some e2 =>
      rw [h2] at h
      by_cases hle : a.due ≤ e2.due
      · simp only [if_pos hle, Option.some.injEq] at h
        subst h
        intro x hx
        rcases List.mem_cons.mp hx with rfl | hx
        · exact le_refl _
        · exact le_trans hle (ih h2 x hx)
      · simp only [if_neg hle, Option.some.injEq] at h
        subst h
        intro x hx
        rcases List.mem_cons.mp hx with rfl | hx
        · exact le_of_lt (lt_of_not_le hle)
        · exact ih h2 x hx

theorem pqTop_pop_perm {l : List ScheduledCallback} {e : ScheduledCallback}
    (h : pqTop? l = some e) : l.Perm (e :: pqPop l) := by
  induction l generalizing e with
  | nil => simp [pqTop?] at h
  | cons a rest ih =>
    simp only [pqTop?] at h
    cases h2 : pqTop? rest with
    | none =>
      rw [h2] at h
      simp only [Option.some.injEq] at h
      subst h
      simp only [pqPop, h2]
      exact List.Perm.refl _
    | some e2 =>
      rw [h2] at h
      by_cases hle : a.due ≤ e2.due
      · simp only [if_pos hle, Option.some.injEq] at h
        subst h
        simp only [pqPop, h2, if_pos hle]
        exact List.Perm.refl _
      · simp only [if_neg hle, Option.some.injEq] at h
        subst h
        simp only [pqPop, h2, if_neg hle]
        exact ((ih h2).cons a).trans (List.Perm.swap e2 a (pqPop rest))

theorem SchedulerSet.Cancel_frame (s : SchedulerSet.State) (t : Int) :
    (SchedulerSet.Cancel s t).clock = s.clock ∧
    (SchedulerSet.Cancel s t).scheduledCallbacks = s.scheduledCallbacks ∧
    (SchedulerSet.Cancel s t).stopWorker = s.stopWorker ∧
    (SchedulerSet.Cancel s t).nextToken = s.nextToken := by
  unfold SchedulerSet.Cancel
  split <;> exact ⟨rfl, rfl, rfl, rfl⟩

theorem SchedulerSet.Worker_frame {s s2 : SchedulerSet.State} {act : WorkerAct}
    (h : SchedulerSet.Worker s = some (s2, act)) :
    s2.clock = s.clock ∧ s2.stopWorker = s.stopWorker ∧
    s2.nextToken = s.nextToken ∧ s2.canceledCallbacks = s.canceledCallbacks := by
  unfold SchedulerSet.Worker at h
  by_cases hstop : s.stopWorker
  · rw [if_pos hstop] at h
    simp only [Option.some.injEq, Prod.mk.injEq] at h
    rw [← h.1]
    exact ⟨rfl, rfl, rfl, rfl⟩
  · rw [if_neg hstop] at h
    cases htop : pqTop? s.scheduledCallbacks with
    | none =>
      rw [htop] at h
      simp only [Option.some.injEq, Prod.mk.injEq] at h
      rw [← h.1]
      exact ⟨rfl, rfl, rfl, rfl⟩
    | some e =>
      rw [htop] at h
      cases hclock : s.clock with
      | none => rw [hclock] at h; exact absurd h (by simp)
      | some now =>
        rw [hclock] at h
        dsimp only at h
        by_cases hc1 : e.due - now > 0 ∧ e.token ∉ s.canceledCallbacks
        · rw [if_pos hc1] at h
          simp only [Option.some.injEq, Prod.mk.injEq] at h
          rw [← h.1]
          exact ⟨hclock, rfl, rfl, rfl⟩
        · rw [if_neg hc1] at h
          by_cases hc2 : e.token ∉ s.canceledCallbacks
          · rw [if_pos hc2] at h
            simp only [Option.some.injEq, Prod.mk.injEq] at h
            rw [← h.1]
            exact ⟨rfl, rfl, rfl, rfl⟩
          · rw [if_neg hc2] at h
            simp only [Option.some.injEq, Prod.mk.injEq] at h
            rw [← h.1]
            exact ⟨rfl, rfl, rfl, rfl⟩

theorem SchedulerSet.run_returns_range (ops : List SchedulerSet.Op) :
    ∀ s : SchedulerSet.State, 1 ≤ s.nextToken →
    ∃ k : Nat,
      ((SchedulerSet.run s ops).returns.filter (fun t => t ≠ 0)) =
        (List.range k).map (fun i : Nat => s.nextToken + (i : Int)) ∧
      (SchedulerSet.run s ops).final.nextToken = s.nextToken + k := by
  induction ops with
  | nil =>
    intro s _
    exact ⟨0, by simp [SchedulerSet.run], by simp [SchedulerSet.run]⟩
  | cons op rest ih =>
    intro s h1
    cases op with
    | schedule cb due =>
      cases hclock : s.clock with
      | none =>
        have hs : SchedulerSet.Schedule s cb due = (s, 0) := by
          simp [SchedulerSet.Schedule, hclock]
        obtain ⟨k, hf, hn⟩ := ih s h1
        refine ⟨k, ?_, ?_⟩
        · simp only [SchedulerSet.run, hs, List.filter_cons]
          simpa using hf
        · simp only [SchedulerSet.run, hs]
          exact hn
      | some now =>
        have hs1 : (SchedulerSet.Schedule s cb due).1 =
            { s with
                nextToken := s.nextToken + 1,
                scheduledCallbacks :=
                  pqPush ⟨s.nextToken, due, cb⟩ s.scheduledCallbacks } := by
          simp [SchedulerSet.Schedule, hclock]
        have hs2 : (SchedulerSet.Schedule s cb due).2 = s.nextToken := by
          simp [SchedulerSet.Schedule, hclock]
        have hnt : (SchedulerSet.Schedule s cb due).1.nextToken =
            s.nextToken + 1 := by
          rw [hs1]
        obtain ⟨k, hf, hn⟩ := ih (SchedulerSet.Schedule s cb due).1
          (by rw [hnt]; omega)
        simp only [hnt] at hf hn
        refine ⟨k + 1, ?_, ?_⟩
        · simp only [SchedulerSet.run, List.filter_cons, hs2]
          have hne : (s.nextToken ≠ 0) := by omega
          rw [if_pos (by simpa using hne)]
          rw [hf, List.range_succ_eq_map, List.map_cons, List.map_map]
          refine congrArg₂ List.cons (by simp) ?_
          apply List.map_congr_left
          intro i _
          simp only [Function.comp]
          push_cast
          ring
        · simp only [SchedulerSet.run]
          rw [hn]
          push_cast
          ring
    | cancel t =>
      obtain ⟨-, -, -, hn⟩ := SchedulerSet.Cancel_frame s t
      obtain ⟨k, hf, hfin⟩ := ih (SchedulerSet.Cancel s t) (by omega)
      exact ⟨k, by simpa [SchedulerSet.run, hn] using hf,
        by simpa [SchedulerSet.run, hn] using hfin⟩
    | wakeUp =>
      obtain ⟨k, hf, hfin⟩ := ih (SchedulerSet.WakeUp s) h1
      exact ⟨k, by simpa [SchedulerSet.run] using hf,
        by simpa [SchedulerSet.run] using hfin⟩
    | setClock c =>
      obtain ⟨k, hf, hfin⟩ := ih (SchedulerSet.SetClock s c) h1
      exact ⟨k, by simpa [SchedulerSet.run] using hf,
        by simpa [SchedulerSet.run] using hfin⟩
    | workerPass =>
      cases hw : SchedulerSet.Worker s with
      | none =>
        obtain ⟨k, hf, hfin⟩ := ih s h1
        exact ⟨k, by simpa [SchedulerSet.run, hw] using hf,
          by simpa [SchedulerSet.run, hw] using hfin⟩
      | some r =>
        obtain ⟨s2, act⟩ := r
        obtain ⟨-, -, hn, -⟩ := SchedulerSet.Worker_frame hw
        obtain ⟨k, hf, hfin⟩ := ih s2 (by omega)
        rw [hn] at hf hfin
        cases act with
        | fired e evs =>
          exact ⟨k, by simpa [SchedulerSet.run, hw] using hf,
            by simpa [SchedulerSet.run, hw] using hfin⟩
        | stopped =>
          exact ⟨k, by simpa [SchedulerSet.run, hw] using hf,
            by simpa [SchedulerSet.run, hw] using hfin⟩
        | idleWait =>
          exact ⟨k, by simpa [SchedulerSet.run, hw] using hf,
            by simpa [SchedulerSet.run, hw] using hfin⟩
        | waiting ms =>
          exact ⟨k, by simpa [SchedulerSet.run, hw] using hf,
            by simpa [SchedulerSet.run, hw] using hfin⟩
        | drained e =>
          exact ⟨k, by simpa [SchedulerSet.run, hw] using hf,
            by simpa [SchedulerSet.run, hw] using hfin⟩

theorem SchedulerSet.Worker_none_of_no_clock (s : SchedulerSet.State)
    (hstop : s.stopWorker = false) (hne : s.scheduledCallbacks ≠ [])
    (hclock : s.clock = none) : SchedulerSet.Worker s = none := by
  cases hl : s.scheduledCallbacks with
  | nil => exact absurd hl hne
  | cons a rest =>
    obtain ⟨e, he⟩ := pqTop_cons a rest
    simp [SchedulerSet.Worker, hstop, hl, he, hclock]

theorem SchedulerMap.Worker_none_of_no_clock_map (s : SchedulerMap.State)
    (hstop : s.stopWorker = false) (hne : s.scheduledCallbacks ≠ [])
    (hclock : s.clock = none) : SchedulerMap.Worker s = none := by
  cases hl : s.scheduledCallbacks with
  | nil => exact absurd hl hne
  | cons a rest =>
    obtain ⟨e, he⟩ := pqTop_cons a rest
    simp [SchedulerMap.Worker, hstop, hl, he, hclock]

/-- C3: a `Schedule` call made while no clock has been set returns token
0 and leaves the scheduler state — pending set, token counter,
cancellation bookkeeping — entirely unchanged, so the dropped callback
can never be invoked; this holds in both revisions of `Scheduler.cpp`. -/
theorem schedule_without_clock_is_inert
    (s : SchedulerSet.State) (s2 : SchedulerMap.State)
    (callback : Nat) (due : ℚ)
    (h : s.clock = none) (h2 : s2.clock = none) :
    SchedulerSet.Schedule s callback due = (s, 0) ∧
    SchedulerMap.Schedule s2 callback due = (s2, 0) := by
  constructor
  · simp [SchedulerSet.Schedule, h]
  · simp [SchedulerMap.Schedule, h2]

/-- Witness for C3 at the freshly constructed scheduler. -/
theorem schedule_without_clock_is_inert_witness :
    SchedulerSet.Schedule SchedulerSet.schedulerInit 7 5 =
        (SchedulerSet.schedulerInit, 0) ∧
    SchedulerMap.Schedule SchedulerMap.schedulerInit 7 5 =
        (SchedulerMap.schedulerInit, 0) :=
  schedule_without_clock_is_inert SchedulerSet.schedulerInit
    SchedulerMap.schedulerInit 7 5 rfl rfl

/-- C9: with stop not requested and a non-empty pending set, the worker's
evaluation pass unconditionally dereferences the clock pointer, crashing
(modelled as `none`) when the clock is null; `Schedule` refuses to insert
while the clock is null, but `SetClock` performs no null check, so setting
a null clock while entries are pending drives the next worker pass into
the null dereference.  Both revisions behave this way. -/
theorem worker_clock_null_dereference :
    (∀ s : SchedulerSet.State, s.stopWorker = false →
      s.scheduledCallbacks ≠ [] → s.clock = none →
      SchedulerSet.Worker s = none) ∧
    (∀ s : SchedulerMap.State, s.stopWorker = false →
      s.scheduledCallbacks ≠ [] → s.clock = none →
      SchedulerMap.Worker s = none) ∧
    (∀ (s : SchedulerSet.State) (callback : Nat) (due : ℚ),
      s.clock = none → SchedulerSet.Schedule s callback due = (s, 0)) ∧
    (∀ (s : SchedulerSet.State) (clock : Option ℚ),
      SchedulerSet.SetClock s clock = { s with clock := clock }) ∧
    (∀ s : SchedulerSet.State, s.stopWorker = false →
      s.scheduledCallbacks ≠ [] →
      SchedulerSet.Worker (SchedulerSet.SetClock s none) = none) := by
  refine ⟨SchedulerSet.Worker_none_of_no_clock,
    SchedulerMap.Worker_none_of_no_clock_map, ?_, fun s c => rfl, ?_⟩
  · intro s callback due h
    simp [SchedulerSet.Schedule, h]
  · intro s hstop hne
    exact SchedulerSet.Worker_none_of_no_clock _ hstop hne rfl

/-- Witness for C9: a pending entry plus a null clock crashes the worker
pass, in both revisions. -/
theorem worker_clock_null_dereference_witness :
    SchedulerSet.Worker ⟨none, [⟨1, 5, 7⟩], false, 2, []⟩ = none ∧
    SchedulerMap.Worker ⟨none, [⟨1, 5, 7⟩], false, 2, [(1, false)]⟩ = none ∧
    SchedulerSet.Worker
      (SchedulerSet.SetClock ⟨some 4, [⟨1, 5, 7⟩], false, 2, []⟩ none) =
        none :=
  ⟨worker_clock_null_dereference.1 _ rfl (by decide) rfl,
    worker_clock_null_dereference.2.1 _ rfl (by decide) rfl,
    worker_clock_null_dereference.2.2.2.2 _ rfl (by decide)⟩

/-- C5: over any operation sequence on a freshly constructed scheduler,
the successful (non-zero) tokens returned by `Schedule` are strictly
increasing, all positive, pairwise distinct (never reused), and the first
one is 1; moreover a call returns the reserved token 0 exactly when no
clock is set at the time of the call. -/
theorem schedule_tokens_strictly_increasing (ops : List SchedulerSet.Op) :
    List.Pairwise (· < ·)
      ((SchedulerSet.run SchedulerSet.schedulerInit ops).returns.filter
        (fun t => t ≠ 0)) ∧
    (∀ t ∈ (SchedulerSet.run SchedulerSet.schedulerInit ops).returns.filter
        (fun t => t ≠ 0), 0 < t) ∧
    ((SchedulerSet.run SchedulerSet.schedulerInit ops).returns.filter
        (fun t => t ≠ 0)).Nodup ∧
    (((SchedulerSet.run SchedulerSet.schedulerInit ops).returns.filter
        (fun t => t ≠ 0)) ≠ [] →
      ((SchedulerSet.run SchedulerSet.schedulerInit ops).returns.filter
        (fun t => t ≠ 0)).head? = some 1) ∧
    (∀ (s : SchedulerSet.State) (callback : Nat) (due : ℚ),
      1 ≤ s.nextToken →
      ((SchedulerSet.Schedule s callback due).2 = 0 ↔ s.clock = none)) := by
  obtain ⟨k, hf, -⟩ :=
    SchedulerSet.run_returns_range ops SchedulerSet.schedulerInit (by decide)
  have hinit : SchedulerSet.schedulerInit.nextToken = 1 := rfl
  simp only [hinit] at hf
  have hpw : List.Pairwise (· < ·)
      ((List.range k).map (fun i : Nat => (1 : Int) + (i : Int))) := by
    refine List.Pairwise.map _ ?_ (List.pairwise_lt_range k)
    intro a b hab
    omega
  refine ⟨?_, ?_, ?_, ?_, ?_⟩
  · rw [hf]
    exact hpw
  · rw [hf]
    intro t ht
    simp only [List.mem_map, List.mem_range] at ht
    obtain ⟨i, -, rfl⟩ := ht
    omega
  · rw [hf]
    exact hpw.imp (fun hab => ne_of_lt hab)
  · rw [hf]
    cases k with
    | zero => intro h; simp at h
    | succ k2 =>
      intro h
      rw [List.range_succ_eq_map]
      simp
  · intro s callback due h1
    cases hclock : s.clock with
    | none => simp [SchedulerSet.Schedule, hclock]
    | some now =>
      simp only [SchedulerSet.Schedule, hclock]
      constructor
      · intro h0
        exact absurd h0 (by omega)
      · intro h0
        exact absurd h0 (by simp)

/-- Witness for C5: a concrete two-operation run whose first successful
token is 1, and a concrete `Schedule` call on which the zero-return
condition is the no-clock condition. -/
theorem schedule_tokens_strictly_increasing_witness :
    ((SchedulerSet.run SchedulerSet.schedulerInit
        [SchedulerSet.Op.setClock (some 0),
          SchedulerSet.Op.schedule 9 2]).returns.filter
      (fun t => t ≠ 0)).head? = some 1 ∧
    ((SchedulerSet.Schedule ⟨some 0, [], false, 1, []⟩ 9 2).2 = 0 ↔
      (⟨some 0, [], false, 1, []⟩ : SchedulerSet.State).clock = none) :=
  ⟨(schedule_tokens_strictly_increasing
      [SchedulerSet.Op.setClock (some 0),
        SchedulerSet.Op.schedule 9 2]).2.2.2.1 (by decide),
    (schedule_tokens_strictly_increasing []).2.2.2.2
      ⟨some 0, [], false, 1, []⟩ 9 2 (by decide)⟩

theorem SchedulerSet.Worker_cases {s s2 : SchedulerSet.State} {act : WorkerAct}
    (h : SchedulerSet.Worker s = some (s2, act)) :
    (s.stopWorker = true ∧ s2 = s ∧ act = WorkerAct.stopped) ∨
    (s.stopWorker = false ∧ pqTop? s.scheduledCallbacks = none ∧
      s2 = s ∧ act = WorkerAct.idleWait) ∨
    (∃ e now, s.stopWorker = false ∧
      pqTop? s.scheduledCallbacks = some e ∧ s.clock = some now ∧
      ((e.due - now > 0 ∧ e.token ∉ s.canceledCallbacks ∧ s2 = s ∧
          act = WorkerAct.waiting ⌈(e.due - now) * 1000⌉) ∨
        (e.due - now ≤ 0 ∧ e.token ∉ s.canceledCallbacks ∧
          s2 = { s with scheduledCallbacks := pqPop s.scheduledCallbacks } ∧
          act = WorkerAct.fired e [Event.invoke e.callback]) ∨
        (e.token ∈ s.canceledCallbacks ∧
          s2 = { s with scheduledCallbacks := pqPop s.scheduledCallbacks } ∧
          act = WorkerAct.drained e))) := by
  unfold SchedulerSet.Worker at h
  by_cases hstop : s.stopWorker
  · rw [if_pos hstop] at h
    simp only [Option.some.injEq, Prod.mk.injEq] at h
    exact Or.inl ⟨hstop, h.1.symm, h.2.symm⟩
  · rw [if_neg hstop] at h
    cases htop : pqTop? s.scheduledCallbacks with
    | none =>
      rw [htop] at h
      simp only [Option.some.injEq, Prod.mk.injEq] at h
      exact Or.inr (Or.inl
        ⟨by simpa using hstop, rfl, h.1.symm, h.2.symm⟩)
    | some e =>
      rw [htop] at h
      cases hclock : s.clock with
      | none => rw [hclock] at h; exact absurd h (by simp)
      | some now =>
        rw [hclock] at h
        dsimp only at h
        refine Or.inr (Or.inr ⟨e, now, by simpa using hstop, rfl, rfl, ?_⟩)
        by_cases hc1 : e.due - now > 0 ∧ e.token ∉ s.canceledCallbacks
        · rw [if_pos hc1] at h
          simp only [Option.some.injEq, Prod.mk.injEq] at h
          exact Or.inl ⟨hc1.1, hc1.2, h.1.symm, h.2.symm⟩
        · rw [if_neg hc1] at h
          by_cases hc2 : e.token ∉ s.canceledCallbacks
          · rw [if_pos hc2] at h
            simp only [Option.some.injEq, Prod.mk.injEq] at h
            have hle : e.due - now ≤ 0 := by
              by_contra hgt
              exact hc1 ⟨lt_of_not_le hgt, hc2⟩
            exact Or.inr (Or.inl ⟨hle, hc2, h.1.symm, h.2.symm⟩)
          · rw [if_neg hc2] at h
            simp only [Option.some.injEq, Prod.mk.injEq] at h
            exact Or.inr (Or.inr ⟨not_not.mp hc2, h.1.symm, h.2.symm⟩)

theorem SchedulerMap.Worker_cases_map {s s2 : SchedulerMap.State} {act : WorkerAct}
    (h : SchedulerMap.Worker s = some (s2, act)) :
    (s.stopWorker = true ∧ s2 = s ∧ act = WorkerAct.stopped) ∨
    (s.stopWorker = false ∧ pqTop? s.scheduledCallbacks = none ∧
      s2 = s ∧ act = WorkerAct.idleWait) ∨
    (∃ e now, s.stopWorker = false ∧
      pqTop? s.scheduledCallbacks = some e ∧ s.clock = some now ∧
      ((e.due - now > 0 ∧
          (SchedulerMap.mapIndex s.isCallbackCanceled e.token).1 = false ∧
          s2 = { s with isCallbackCanceled :=
            (SchedulerMap.mapIndex s.isCallbackCanceled e.token).2 } ∧
          act = WorkerAct.waiting ⌈(e.due - now) * 1000⌉) ∨
        (e.due - now ≤ 0 ∧
          (SchedulerMap.mapIndex s.isCallbackCanceled e.token).1 = false ∧
          s2 = { s with
            isCallbackCanceled := SchedulerMap.mapErase
              (SchedulerMap.mapIndex s.isCallbackCanceled e.token).2 e.token,
            scheduledCallbacks := pqPop s.scheduledCallbacks } ∧
          act = WorkerAct.fired e
            [Event.unlock, Event.invoke e.callback, Event.lock]) ∨
        ((SchedulerMap.mapIndex s.isCallbackCanceled e.token).1 = true ∧
          s2 = { s with
            isCallbackCanceled := SchedulerMap.mapErase
              (SchedulerMap.mapIndex s.isCallbackCanceled e.token).2 e.token,
            scheduledCallbacks := pqPop s.scheduledCallbacks } ∧
          act = WorkerAct.drained e))) := by
  unfold SchedulerMap.Worker at h
  by_cases hstop : s.stopWorker
  · rw [if_pos hstop] at h
    simp only [Option.some.injEq, Prod.mk.injEq] at h
    exact Or.inl ⟨hstop, h.1.symm, h.2.symm⟩
  · rw [if_neg hstop] at h
    cases htop : pqTop? s.scheduledCallbacks with
    | none =>
      rw [htop] at h
      simp only [Option.some.injEq, Prod.mk.injEq] at h
      exact Or.inr (Or.inl ⟨by simpa using hstop, rfl, h.1.symm, h.2.symm⟩)
    | some e =>
      rw [htop] at h
      cases hclock : s.clock with
      | none => rw [hclock] at h; exact absurd h (by simp)
      | some now =>
        rw [hclock] at h
        dsimp only at h
        refine Or.inr (Or.inr ⟨e, now, by simpa using hstop, rfl, rfl, ?_⟩)
        by_cases hc1 : e.due - now > 0 ∧
            (SchedulerMap.mapIndex s.isCallbackCanceled e.token).1 = false
        · rw [if_pos hc1] at h
          simp only [Option.some.injEq, Prod.mk.injEq] at h
          exact Or.inl ⟨hc1.1, hc1.2, h.1.symm, h.2.symm⟩
        · rw [if_neg hc1] at h
          by_cases hc2 :
              (SchedulerMap.mapIndex s.isCallbackCanceled e.token).1 = false
          · rw [if_pos hc2] at h
            simp only [Option.some.injEq, Prod.mk.injEq] at h
            have hle : e.due - now ≤ 0 := by
              by_contra hgt
              exact hc1 ⟨lt_of_not_le hgt, hc2⟩
            exact Or.inr (Or.inl ⟨hle, hc2, h.1.symm, h.2.symm⟩)
          · rw [if_neg hc2] at h
            simp only [Option.some.injEq, Prod.mk.injEq] at h
            exact Or.inr (Or.inr
              ⟨Bool.not_eq_false _ ▸ (by simpa using hc2), h.1.symm, h.2.symm⟩)

theorem SchedulerSet.Worker_waiting_eq {s : SchedulerSet.State}
    {e : ScheduledCallback} {now : ℚ}
    (hstop : s.stopWorker = false) (htop : pqTop? s.scheduledCallbacks = some e)
    (hclock : s.clock = some now) (hpos : e.due - now > 0)
    (hnc : e.token ∉ s.canceledCallbacks) :
    SchedulerSet.Worker s =
      some (s, WorkerAct.waiting ⌈(e.due - now) * 1000⌉) := by
  unfold SchedulerSet.Worker
  rw [if_neg (by simp [hstop]), htop, hclock]
  dsimp only
  rw [if_pos ⟨hpos, hnc⟩]

theorem SchedulerSet.Worker_fired_eq {s : SchedulerSet.State}
    {e : ScheduledCallback} {now : ℚ}
    (hstop : s.stopWorker = false) (htop : pqTop? s.scheduledCallbacks = some e)
    (hclock : s.clock = some now) (hle : e.due - now ≤ 0)
    (hnc : e.token ∉ s.canceledCallbacks) :
    SchedulerSet.Worker s =
      some ({ s with scheduledCallbacks := pqPop s.scheduledCallbacks },
        WorkerAct.fired e [Event.invoke e.callback]) := by
  unfold SchedulerSet.Worker
  rw [if_neg (by simp [hstop]), htop, hclock]
  dsimp only
  rw [if_neg (by rintro ⟨h1, -⟩; linarith), if_pos hnc]

theorem SchedulerSet.Worker_drained_eq {s : SchedulerSet.State}
    {e : ScheduledCallback} {now : ℚ}
    (hstop : s.stopWorker = false) (htop : pqTop? s.scheduledCallbacks = some e)
    (hclock : s.clock = some now) (hc : e.token ∈ s.canceledCallbacks) :
    SchedulerSet.Worker s =
      some ({ s with scheduledCallbacks := pqPop s.scheduledCallbacks },
        WorkerAct.drained e) := by
  unfold SchedulerSet.Worker
  rw [if_neg (by simp [hstop]), htop, hclock]
  dsimp only
  rw [if_neg (by rintro ⟨-, h2⟩; exact h2 hc), if_neg (not_not_intro hc)]

theorem SchedulerMap.Worker_waiting_eq_map {s : SchedulerMap.State}
    {e : ScheduledCallback} {now : ℚ} {m : List (Int × Bool)}
    (hstop : s.stopWorker = false) (htop : pqTop? s.scheduledCallbacks = some e)
    (hclock : s.clock = some now) (hpos : e.due - now > 0)
    (hread : SchedulerMap.mapIndex s.isCallbackCanceled e.token = (false, m)) :
    SchedulerMap.Worker s =
      some ({ s with isCallbackCanceled := m },
        WorkerAct.waiting ⌈(e.due - now) * 1000⌉) := by
  unfold SchedulerMap.Worker
  rw [if_neg (by simp [hstop]), htop, hclock]
  dsimp only
  rw [hread]
  dsimp only
  rw [if_pos ⟨hpos, rfl⟩]

theorem SchedulerMap.Worker_fired_eq_map {s : SchedulerMap.State}
    {e : ScheduledCallback} {now : ℚ} {m : List (Int × Bool)}
    (hstop : s.stopWorker = false) (htop : pqTop? s.scheduledCallbacks = some e)
    (hclock : s.clock = some now) (hle : e.due - now ≤ 0)
    (hread : SchedulerMap.mapIndex s.isCallbackCanceled e.token = (false, m)) :
    SchedulerMap.Worker s =
      some ({ s with
          isCallbackCanceled := SchedulerMap.mapErase m e.token,
          scheduledCallbacks := pqPop s.scheduledCallbacks },
        WorkerAct.fired e [Event.unlock, Event.invoke e.callback, Event.lock]) := by
  unfold SchedulerMap.Worker
  rw [if_neg (by simp [hstop]), htop, hclock]
  dsimp only
  rw [hread]
  dsimp only
  rw [if_neg (by rintro ⟨h1, -⟩; linarith), if_pos rfl]

theorem SchedulerMap.Worker_drained_eq_map {s : SchedulerMap.State}
    {e : ScheduledCallback} {now : ℚ} {m : List (Int × Bool)}
    (hstop : s.stopWorker = false) (htop : pqTop? s.scheduledCallbacks = some e)
    (hclock : s.clock = some now)
    (hread : SchedulerMap.mapIndex s.isCallbackCanceled e.token = (true, m)) :
    SchedulerMap.Worker s =
      some ({ s with
          isCallbackCanceled := SchedulerMap.mapErase m e.token,
          scheduledCallbacks := pqPop s.scheduledCallbacks },
        WorkerAct.drained e) := by
  unfold SchedulerMap.Worker
  rw [if_neg (by simp [hstop]), htop, hclock]
  dsimp only
  rw [hread]
  dsimp only
  rw [if_neg (by simp), if_neg (by simp)]

/-- C6: a callback with due time D is never fired while the clock reads
strictly less than D: in both revisions a `fired` worker outcome forces
`due ≤ now`, and when `due − now > 0` (and the entry is not canceled) the
worker blocks with a timeout, leaving the pending set untouched and
invoking nothing. -/
theorem no_early_firing :
    (∀ (s s2 : SchedulerSet.State) (now : ℚ) (e : ScheduledCallback)
      (evs : List Event), s.clock = some now →
      SchedulerSet.Worker s = some (s2, WorkerAct.fired e evs) →
      e.due ≤ now) ∧
    (∀ (s : SchedulerSet.State) (now : ℚ) (e : ScheduledCallback),
      s.stopWorker = false → pqTop? s.scheduledCallbacks = some e →
      s.clock = some now → e.due - now > 0 → e.token ∉ s.canceledCallbacks →
      SchedulerSet.Worker s =
        some (s, WorkerAct.waiting ⌈(e.due - now) * 1000⌉)) ∧
    (∀ (s s2 : SchedulerMap.State) (now : ℚ) (e : ScheduledCallback)
      (evs : List Event), s.clock = some now →
      SchedulerMap.Worker s = some (s2, WorkerAct.fired e evs) →
      e.due ≤ now) ∧
    (∀ (s : SchedulerMap.State) (now : ℚ) (e : ScheduledCallback)
      (m : List (Int × Bool)),
      s.stopWorker = false → pqTop? s.scheduledCallbacks = some e →
      s.clock = some now → e.due - now > 0 →
      SchedulerMap.mapIndex s.isCallbackCanceled e.token = (false, m) →
      SchedulerMap.Worker s = some ({ s with isCallbackCanceled := m },
        WorkerAct.waiting ⌈(e.due - now) * 1000⌉)) := by
  refine ⟨?_, ?_, ?_, ?_⟩
  · intro s s2 now e evs hclock h
    rcases SchedulerSet.Worker_cases h with
      ⟨-, -, hact⟩ | ⟨-, -, -, hact⟩ |
      ⟨e2, now2, -, -, hclock2, hbr⟩
    · exact absurd hact (by simp)
    · exact absurd hact (by simp)
    · rw [hclock] at hclock2
      injection hclock2 with hnow
      subst hnow
      rcases hbr with ⟨-, -, -, hact⟩ | ⟨hle, -, -, hact⟩ | ⟨-, -, hact⟩
      · exact absurd hact (by simp)
      · injection hact with he hevs
        subst he
        linarith
      · exact absurd hact (by simp)
  · intro s now e hstop htop hclock hpos hnc
    exact SchedulerSet.Worker_waiting_eq hstop htop hclock hpos hnc
  · intro s s2 now e evs hclock h
    rcases SchedulerMap.Worker_cases_map h with
      ⟨-, -, hact⟩ | ⟨-, -, -, hact⟩ |
      ⟨e2, now2, -, -, hclock2, hbr⟩
    · exact absurd hact (by simp)
    · exact absurd hact (by simp)
    · rw [hclock] at hclock2
      injection hclock2 with hnow
      subst hnow
      rcases hbr with ⟨-, -, -, hact⟩ | ⟨hle, -, -, hact⟩ | ⟨-, -, hact⟩
      · exact absurd hact (by simp)
      · injection hact with he hevs
        subst he
        linarith
      · exact absurd hact (by simp)
  · intro s now e m hstop htop hclock hpos hread
    exact SchedulerMap.Worker_waiting_eq_map hstop htop hclock hpos hread

/-- Witness for C6: a fired outcome at clock 7 for a due-5 entry indeed
has due ≤ now, and a due-7/2 entry at clock 2 leaves the worker waiting
with the state unchanged. -/
theorem no_early_firing_witness :
    ((5 : ℚ) ≤ 7) ∧
    SchedulerSet.Worker ⟨some 2, [⟨1, (7:ℚ)/2, 77⟩], false, 2, []⟩ =
      some (⟨some 2, [⟨1, (7:ℚ)/2, 77⟩], false, 2, []⟩,
        WorkerAct.waiting ⌈(((7:ℚ)/2) - 2) * 1000⌉) :=
  ⟨no_early_firing.1 ⟨some 7, [⟨1, 5, 77⟩], false, 2, []⟩
      ⟨some 7, [], false, 2, []⟩ 7 ⟨1, 5, 77⟩ [Event.invoke 77] rfl
      (by norm_num [SchedulerSet.Worker, pqTop?, pqPop]),
    no_early_firing.2.1 ⟨some 2, [⟨1, (7:ℚ)/2, 77⟩], false, 2, []⟩ 2
      ⟨1, (7:ℚ)/2, 77⟩ rfl rfl rfl (by norm_num) (by simp)⟩

/-- C8: whenever the earliest pending entry is strictly in the future and
not canceled, the worker blocks with a timeout of exactly
`ceil(wait * 1000)` milliseconds; that timeout, converted back to
seconds, is at least the remaining wait, so absent an explicit or
spurious wake the worker does not wake strictly before the due time.
Both revisions compute the same timeout. -/
theorem waiting_timeout_is_ceil_of_wait :
    (∀ (s : SchedulerSet.State) (now : ℚ) (e : ScheduledCallback),
      s.stopWorker = false → pqTop? s.scheduledCallbacks = some e →
      s.clock = some now → e.due - now > 0 → e.token ∉ s.canceledCallbacks →
      SchedulerSet.Worker s =
          some (s, WorkerAct.waiting ⌈(e.due - now) * 1000⌉) ∧
        (e.due - now) * 1000 ≤ ((⌈(e.due - now) * 1000⌉ : Int) : ℚ) ∧
        e.due ≤ now + ((⌈(e.due - now) * 1000⌉ : Int) : ℚ) / 1000) ∧
    (∀ (s : SchedulerMap.State) (now : ℚ) (e : ScheduledCallback)
      (m : List (Int × Bool)),
      s.stopWorker = false → pqTop? s.scheduledCallbacks = some e →
      s.clock = some now → e.due - now > 0 →
      SchedulerMap.mapIndex s.isCallbackCanceled e.token = (false, m) →
      SchedulerMap.Worker s =
          some ({ s with isCallbackCanceled := m },
            WorkerAct.waiting ⌈(e.due - now) * 1000⌉) ∧
        (e.due - now) * 1000 ≤ ((⌈(e.due - now) * 1000⌉ : Int) : ℚ) ∧
        e.due ≤ now + ((⌈(e.due - now) * 1000⌉ : Int) : ℚ) / 1000) := by
  have harith : ∀ (d now : ℚ),
      (d - now) * 1000 ≤ ((⌈(d - now) * 1000⌉ : Int) : ℚ) ∧
      d ≤ now + ((⌈(d - now) * 1000⌉ : Int) : ℚ) / 1000 := by
    intro d now
    have hc := Int.le_ceil ((d - now) * 1000)
    refine ⟨hc, ?_⟩
    have h2 : d - now ≤ ((⌈(d - now) * 1000⌉ : Int) : ℚ) / 1000 := by
      rw [le_div_iff₀ (by norm_num : (0:ℚ) < 1000)]
      exact hc
    linarith
  constructor
  · intro s now e hstop htop hclock hpos hnc
    exact ⟨SchedulerSet.Worker_waiting_eq hstop htop hclock hpos hnc,
      (harith e.due now).1, (harith e.due now).2⟩
  · intro s now e m hstop htop hclock hpos hread
    exact ⟨SchedulerMap.Worker_waiting_eq_map hstop htop hclock hpos hread,
      (harith e.due now).1, (harith e.due now).2⟩

/-- Witness for C8 at a due-7/2 entry with the clock at 2 (wait = 3/2 s,
timeout 1500 ms), in both revisions. -/
theorem waiting_timeout_is_ceil_of_wait_witness :
    (SchedulerSet.Worker ⟨some 2, [⟨1, (7:ℚ)/2, 77⟩], false, 2, []⟩ =
        some (⟨some 2, [⟨1, (7:ℚ)/2, 77⟩], false, 2, []⟩,
          WorkerAct.waiting ⌈(((7:ℚ)/2) - 2) * 1000⌉) ∧
      (((7:ℚ)/2) - 2) * 1000 ≤ ((⌈(((7:ℚ)/2) - 2) * 1000⌉ : Int) : ℚ) ∧
      ((7:ℚ)/2) ≤ 2 + ((⌈(((7:ℚ)/2) - 2) * 1000⌉ : Int) : ℚ) / 1000) ∧
    (SchedulerMap.Worker ⟨some 2, [⟨1, (7:ℚ)/2, 77⟩], false, 2, [(1, false)]⟩ =
        some (⟨some 2, [⟨1, (7:ℚ)/2, 77⟩], false, 2, [(1, false)]⟩,
          WorkerAct.waiting ⌈(((7:ℚ)/2) - 2) * 1000⌉) ∧
      (((7:ℚ)/2) - 2) * 1000 ≤ ((⌈(((7:ℚ)/2) - 2) * 1000⌉ : Int) : ℚ) ∧
      ((7:ℚ)/2) ≤ 2 + ((⌈(((7:ℚ)/2) - 2) * 1000⌉ : Int) : ℚ) / 1000) :=
  ⟨waiting_timeout_is_ceil_of_wait.1 ⟨some 2, [⟨1, (7:ℚ)/2, 77⟩], false, 2, []⟩
      2 ⟨1, (7:ℚ)/2, 77⟩ rfl rfl rfl (by norm_num) (by simp),
    waiting_timeout_is_ceil_of_wait.2
      ⟨some 2, [⟨1, (7:ℚ)/2, 77⟩], false, 2, [(1, false)]⟩
      2 ⟨1, (7:ℚ)/2, 77⟩ [(1, false)] rfl rfl rfl (by norm_num) rfl⟩

theorem SchedulerMap.mapFind_insert_self (m : List (Int × Bool)) (k : Int)
    (v : Bool) :
    SchedulerMap.mapFind (SchedulerMap.mapInsert m k v) k = some v := by
  induction m with
  | nil => simp [SchedulerMap.mapInsert, SchedulerMap.mapFind]
  | cons p rest ih =>
    obtain ⟨k2, v2⟩ := p
    by_cases hk : k2 = k
    · simp [SchedulerMap.mapInsert, SchedulerMap.mapFind, hk]
    · simpa [SchedulerMap.mapInsert, SchedulerMap.mapFind, hk] using ih

theorem SchedulerMap.mapInsert_insert_self (m : List (Int × Bool)) (k : Int)
    (v v2 : Bool) :
    SchedulerMap.mapInsert (SchedulerMap.mapInsert m k v) k v2 =
      SchedulerMap.mapInsert m k v2 := by
  induction m with
  | nil => simp [SchedulerMap.mapInsert]
  | cons p rest ih =>
    obtain ⟨k3, v3⟩ := p
    by_cases hk : k3 = k
    · simp [SchedulerMap.mapInsert, hk]
    · simpa [SchedulerMap.mapInsert, hk] using ih

theorem SchedulerMap.mapFind_erase_self (m : List (Int × Bool)) (k : Int) :
    SchedulerMap.mapFind (SchedulerMap.mapErase m k) k = none := by
  induction m with
  | nil => rfl
  | cons p rest ih =>
    obtain ⟨k2, v2⟩ := p
    by_cases hk : k2 = k
    · simpa [SchedulerMap.mapErase, List.filter_cons, hk] using ih
    · simpa [SchedulerMap.mapErase, List.filter_cons, hk,
        SchedulerMap.mapFind] using ih

/-- C1 counterexample: in the `std::set` revision
(`src/src/Scheduler.cpp`), draining the canceled entry with token 1
removes it from the pending queue but leaves token 1 in the cancellation
set, refuting the claim that after every Draining transition the token is
present in neither structure. -/
theorem draining_keeps_token_in_set_counterexample :
    SchedulerSet.Worker ⟨some 0, [⟨1, 5, 77⟩], false, 2, [1]⟩ =
      some (⟨some 0, [], false, 2, [1]⟩, WorkerAct.drained ⟨1, 5, 77⟩) ∧
    (1 : Int) ∈
      (⟨some 0, [], false, 2, [1]⟩ : SchedulerSet.State).canceledCallbacks := by
  constructor
  · norm_num [SchedulerSet.Worker, pqTop?, pqPop]
  · simp

/-- C1 (amended): in the map revision (`src/unnamed/part_000`), when the
earliest pending entry's token is marked canceled the worker drains it:
the entry leaves the pending queue, the token's map entry is erased (so,
with distinct pending tokens, the token is in neither structure
afterwards), and the outcome is `drained`, which carries no invoke
events; in the `std::set` revision the entry is likewise removed from
the pending queue and not invoked, but the token stays in the
cancellation set. -/
theorem draining_removes_token_from_both (s : SchedulerMap.State)
    (e : ScheduledCallback) (now : ℚ)
    (hstop : s.stopWorker = false)
    (htop : pqTop? s.scheduledCallbacks = some e)
    (hclock : s.clock = some now)
    (hcanc : SchedulerMap.mapFind s.isCallbackCanceled e.token = some true)
    (hnd : (tokensOf s.scheduledCallbacks).Nodup) :
    SchedulerMap.Worker s =
      some ({ s with
          isCallbackCanceled :=
            SchedulerMap.mapErase s.isCallbackCanceled e.token,
          scheduledCallbacks := pqPop s.scheduledCallbacks },
        WorkerAct.drained e) ∧
    SchedulerMap.mapFind
      (SchedulerMap.mapErase s.isCallbackCanceled e.token) e.token = none ∧
    e.token ∉ tokensOf (pqPop s.scheduledCallbacks) := by
  have hread : SchedulerMap.mapIndex s.isCallbackCanceled e.token =
      (true, s.isCallbackCanceled) := by
    unfold SchedulerMap.mapIndex
    rw [hcanc]
  refine ⟨SchedulerMap.Worker_drained_eq_map hstop htop hclock hread,
    SchedulerMap.mapFind_erase_self _ _, ?_⟩
  have hperm := pqTop_pop_perm htop
  have hperm2 : (tokensOf s.scheduledCallbacks).Perm
      (e.token :: tokensOf (pqPop s.scheduledCallbacks)) := by
    simpa [tokensOf] using hperm.map ScheduledCallback.token
  have hnd2 := (hperm2.nodup_iff).mp hnd
  exact (List.nodup_cons.mp hnd2).1

/-- Witness for the amended C1 at a concrete canceled entry. -/
theorem draining_removes_token_from_both_witness :
    SchedulerMap.Worker ⟨some 0, [⟨1, 5, 77⟩], false, 2, [(1, true)]⟩ =
      some (⟨some 0, [], false, 2, []⟩, WorkerAct.drained ⟨1, 5, 77⟩) ∧
    SchedulerMap.mapFind
      (SchedulerMap.mapErase [(1, true)] 1) 1 = none ∧
    (1 : Int) ∉ tokensOf (pqPop [⟨1, 5, 77⟩]) :=
  draining_removes_token_from_both ⟨some 0, [⟨1, 5, 77⟩], false, 2, [(1, true)]⟩
    ⟨1, 5, 77⟩ 0 rfl rfl rfl rfl (by decide)

/-- C2 counterexample: in the `std::set` revision the Firing branch emits
only the invoke event — no unlock precedes it — so the callback is
invoked while the lock is held, refuting the claim that every Firing
transition releases the lock around the invocation. -/
theorem firing_under_lock_counterexample :
    SchedulerSet.Worker ⟨some 7, [⟨1, 5, 77⟩], false, 2, []⟩ =
      some (⟨some 7, [], false, 2, []⟩,
        WorkerAct.fired ⟨1, 5, 77⟩ [Event.invoke 77]) ∧
    heldAtInvoke true [Event.invoke 77] = some true := by
  constructor
  · norm_num [SchedulerSet.Worker, pqTop?, pqPop]
  · rfl

/-- C2 (amended): in the map revision every Firing transition removes the
entry from the pending queue and performs unlock–invoke–lock, so the
callback is invoked with the lock not held; in the `std::set` revision
the firing branch emits only the invoke event and the callback runs with
the (recursive) lock still held. -/
theorem firing_unlocks_around_callback (s s2 : SchedulerMap.State)
    (e : ScheduledCallback) (evs : List Event)
    (h : SchedulerMap.Worker s = some (s2, WorkerAct.fired e evs)) :
    evs = [Event.unlock, Event.invoke e.callback, Event.lock] ∧
    heldAtInvoke true evs = some false ∧
    s2.scheduledCallbacks = pqPop s.scheduledCallbacks ∧
    (∀ (t t2 : SchedulerSet.State) (e2 : ScheduledCallback)
      (evs2 : List Event),
      SchedulerSet.Worker t = some (t2, WorkerAct.fired e2 evs2) →
      evs2 = [Event.invoke e2.callback] ∧
        heldAtInvoke true evs2 = some true) := by
  have hmain : evs = [Event.unlock, Event.invoke e.callback, Event.lock] ∧
      s2.scheduledCallbacks = pqPop s.scheduledCallbacks := by
    rcases SchedulerMap.Worker_cases_map h with
      ⟨-, -, hact⟩ | ⟨-, -, -, hact⟩ | ⟨e2, now2, -, -, -, hbr⟩
    · exact absurd hact (by simp)
    · exact absurd hact (by simp)
    · rcases hbr with ⟨-, -, -, hact⟩ | ⟨-, -, hs2, hact⟩ | ⟨-, -, hact⟩
      · exact absurd hact (by simp)
      · injection hact with he hevs
        subst he
        subst hevs
        subst hs2
        exact ⟨rfl, rfl⟩
      · exact absurd hact (by simp)
  refine ⟨hmain.1, by rw [hmain.1]; rfl, hmain.2, ?_⟩
  intro t t2 e2 evs2 h2
  rcases SchedulerSet.Worker_cases h2 with
    ⟨-, -, hact⟩ | ⟨-, -, -, hact⟩ | ⟨e3, now3, -, -, -, hbr⟩
  · exact absurd hact (by simp)
  · exact absurd hact (by simp)
  · rcases hbr with ⟨-, -, -, hact⟩ | ⟨-, -, -, hact⟩ | ⟨-, -, hact⟩
    · exact absurd hact (by simp)
    · injection hact with he hevs
      subst he
      subst hevs
      exact ⟨rfl, rfl⟩
    · exact absurd hact (by simp)

/-- Witness for the amended C2 at concrete firing transitions of the two
revisions: the map revision invokes with the lock released, the set
revision with the lock held. -/
theorem firing_unlocks_around_callback_witness :
    heldAtInvoke true [Event.unlock, Event.invoke 77, Event.lock] =
        some false ∧
    heldAtInvoke true [Event.invoke 77] = some true :=
  ⟨(firing_unlocks_around_callback
      ⟨some 7, [⟨1, 5, 77⟩], false, 2, [(1, false)]⟩
      ⟨some 7, [], false, 2, []⟩ ⟨1, 5, 77⟩
      [Event.unlock, Event.invoke 77, Event.lock]
      (by norm_num [SchedulerMap.Worker, pqTop?, pqPop, SchedulerMap.mapIndex,
        SchedulerMap.mapFind, SchedulerMap.mapErase])).2.1,
    ((firing_unlocks_around_callback
      ⟨some 7, [⟨1, 5, 77⟩], false, 2, [(1, false)]⟩
      ⟨some 7, [], false, 2, []⟩ ⟨1, 5, 77⟩
      [Event.unlock, Event.invoke 77, Event.lock]
      (by norm_num [SchedulerMap.Worker, pqTop?, pqPop, SchedulerMap.mapIndex,
        SchedulerMap.mapFind, SchedulerMap.mapErase])).2.2.2
      ⟨some 7, [⟨1, 5, 77⟩], false, 2, []⟩ ⟨some 7, [], false, 2, []⟩
      ⟨1, 5, 77⟩ [Event.invoke 77]
      (by norm_num [SchedulerSet.Worker, pqTop?, pqPop])).2⟩

/-- C4 counterexample: in the `std::set` revision, `Cancel` of the
never-issued token 1 is not a behavioral no-op: starting from a fresh
scheduler with the clock at 10, canceling token 1 and then scheduling a
callback (which receives token 1, due 0) makes the next worker pass drain
that registration, whereas without the cancel the same registration
fires. -/
theorem cancel_unknown_token_counterexample :
    SchedulerSet.Worker
        (SchedulerSet.Schedule
          (SchedulerSet.Cancel ⟨some 10, [], false, 1, []⟩ 1) 55 0).1 =
      some (⟨some 10, [], false, 2, [1]⟩, WorkerAct.drained ⟨1, 0, 55⟩) ∧
    SchedulerSet.Worker
        (SchedulerSet.Schedule ⟨some 10, [], false, 1, []⟩ 55 0).1 =
      some (⟨some 10, [], false, 2, []⟩,
        WorkerAct.fired ⟨1, 0, 55⟩ [Event.invoke 55]) := by
  constructor <;>
    norm_num [SchedulerSet.Schedule, SchedulerSet.Cancel, SchedulerSet.Worker,
      pqTop?, pqPop, pqPush]

/-- C4 (amended): in both revisions `Cancel` always succeeds, is
idempotent, never invokes anything, and leaves the pending queue and the
token counter unchanged; in the map revision a cancel of an unknown
(never-issued, already-fired, or already-drained) token is additionally a
complete no-op on the whole state.  In the `std::set` revision a cancel
of a not-yet-issued token is recorded in the cancellation set and
pre-cancels the future registration that receives that token number (see
the counterexample). -/
theorem cancel_idempotent_and_noop (sm : SchedulerMap.State)
    (ss : SchedulerSet.State) (token : Int) :
    ((SchedulerMap.mapFind sm.isCallbackCanceled token = none) →
      SchedulerMap.Cancel sm token = sm) ∧
    SchedulerMap.Cancel (SchedulerMap.Cancel sm token) token =
      SchedulerMap.Cancel sm token ∧
    (SchedulerMap.Cancel sm token).scheduledCallbacks =
      sm.scheduledCallbacks ∧
    (SchedulerMap.Cancel sm token).nextToken = sm.nextToken ∧
    SchedulerSet.Cancel (SchedulerSet.Cancel ss token) token =
      SchedulerSet.Cancel ss token ∧
    (SchedulerSet.Cancel ss token).scheduledCallbacks =
      ss.scheduledCallbacks ∧
    (SchedulerSet.Cancel ss token).nextToken = ss.nextToken := by
  refine ⟨?_, ?_, ?_, ?_, ?_, (SchedulerSet.Cancel_frame ss token).2.1,
    (SchedulerSet.Cancel_frame ss token).2.2.2⟩
  · intro hfind
    unfold SchedulerMap.Cancel
    rw [hfind]
  · cases hfind : SchedulerMap.mapFind sm.isCallbackCanceled token with
    | none =>
      unfold SchedulerMap.Cancel
      rw [hfind]
      rw [hfind]
    | some b =>
      unfold SchedulerMap.Cancel
      rw [hfind]
      dsimp only
      rw [SchedulerMap.mapFind_insert_self]
      dsimp only
      rw [SchedulerMap.mapInsert_insert_self]
  · unfold SchedulerMap.Cancel
    cases hfind : SchedulerMap.mapFind sm.isCallbackCanceled token <;> rfl
  · unfold SchedulerMap.Cancel
    cases hfind : SchedulerMap.mapFind sm.isCallbackCanceled token <;> rfl
  · unfold SchedulerSet.Cancel
    by_cases hmem : token ∈ ss.canceledCallbacks
    · simp [hmem]
    · rw [if_neg hmem, if_pos (by simp)]

/-- Witness for the amended C4: canceling the unknown token 5 on a fresh
map-revision scheduler changes nothing. -/
theorem cancel_idempotent_and_noop_witness :
    SchedulerMap.Cancel ⟨some 0, [], false, 1, []⟩ 5 =
      (⟨some 0, [], false, 1, []⟩ : SchedulerMap.State) :=
  (cancel_idempotent_and_noop ⟨some 0, [], false, 1, []⟩
    SchedulerSet.schedulerInit 5).1 rfl

/-- C7 counterexample: a registration with due 5, scheduled and fired at
clock 10, is followed by a registration with due 3 < 5 that also fires —
later; so for two registrations with due times d1 < d2 that both fire,
the d1 one need not fire first when it is scheduled after the d2 one
already fired. -/
theorem firing_order_counterexample :
    (SchedulerSet.run SchedulerSet.schedulerInit
        [SchedulerSet.Op.setClock (some 10), SchedulerSet.Op.schedule 100 5,
          SchedulerSet.Op.workerPass, SchedulerSet.Op.schedule 200 3,
          SchedulerSet.Op.workerPass]).fired =
      [⟨1, 5, 100⟩, ⟨2, 3, 200⟩] ∧
    ¬ List.Sorted (· ≤ ·)
      ((SchedulerSet.run SchedulerSet.schedulerInit
          [SchedulerSet.Op.setClock (some 10), SchedulerSet.Op.schedule 100 5,
            SchedulerSet.Op.workerPass, SchedulerSet.Op.schedule 200 3,
            SchedulerSet.Op.workerPass]).fired.map ScheduledCallback.due) := by
  have h : (SchedulerSet.run SchedulerSet.schedulerInit
        [SchedulerSet.Op.setClock (some 10), SchedulerSet.Op.schedule 100 5,
          SchedulerSet.Op.workerPass, SchedulerSet.Op.schedule 200 3,
          SchedulerSet.Op.workerPass]).fired =
      [⟨1, 5, 100⟩, ⟨2, 3, 200⟩] := by
    norm_num [SchedulerSet.run, SchedulerSet.schedulerInit,
      SchedulerSet.Schedule, SchedulerSet.SetClock, SchedulerSet.Cancel,
      SchedulerSet.WakeUp, SchedulerSet.Worker, pqTop?, pqPop, pqPush]
  refine ⟨h, ?_⟩
  rw [h]
  decide

/-- C7 (amended): the worker only ever fires a minimum-due element of the
pending set: a fired entry's due time is ≤ the due time of every entry
pending at that step; in particular, of two simultaneously pending
registrations with due times d1 < d2, the d2 one is never the one
fired. -/
theorem worker_fires_minimum_due (s s2 : SchedulerSet.State)
    (e : ScheduledCallback) (evs : List Event)
    (h : SchedulerSet.Worker s = some (s2, WorkerAct.fired e evs)) :
    (∀ x ∈ s.scheduledCallbacks, e.due ≤ x.due) ∧
    (∀ e1 e2 : ScheduledCallback, e1 ∈ s.scheduledCallbacks →
      e2 ∈ s.scheduledCallbacks → e1.due < e2.due → e ≠ e2) := by
  have hmin : ∀ x ∈ s.scheduledCallbacks, e.due ≤ x.due := by
    rcases SchedulerSet.Worker_cases h with
      ⟨-, -, hact⟩ | ⟨-, -, -, hact⟩ | ⟨e2, now2, -, htop, -, hbr⟩
    · exact absurd hact (by simp)
    · exact absurd hact (by simp)
    · rcases hbr with ⟨-, -, -, hact⟩ | ⟨-, -, -, hact⟩ | ⟨-, -, hact⟩
      · exact absurd hact (by simp)
      · injection hact with he hevs
        subst he
        exact pqTop_min htop
      · exact absurd hact (by simp)
  refine ⟨hmin, ?_⟩
  intro e1 e2 h1 h2 hlt heq
  subst heq
  exact absurd (hmin e1 h1) (by linarith)

/-- Witness for the amended C7: at a concrete firing step with entries
due 5 and due 6 pending, the fired entry's due is ≤ 6. -/
theorem worker_fires_minimum_due_witness :
    (⟨1, 5, 77⟩ : ScheduledCallback).due ≤
      (⟨2, 6, 88⟩ : ScheduledCallback).due :=
  (worker_fires_minimum_due ⟨some 7, [⟨1, 5, 77⟩, ⟨2, 6, 88⟩], false, 3, []⟩
      ⟨some 7, [⟨2, 6, 88⟩], false, 3, []⟩ ⟨1, 5, 77⟩ [Event.invoke 77]
      (by norm_num [SchedulerSet.Worker, pqTop?, pqPop])).1
    ⟨2, 6, 88⟩ (by simp)

theorem SchedulerMap.mem_mapKeys_insert (m : List (Int × Bool)) (k t : Int)
    (v : Bool) :
    t ∈ SchedulerMap.mapKeys (SchedulerMap.mapInsert m k v) ↔
      t ∈ SchedulerMap.mapKeys m ∨ t = k := by
  induction m with
  | nil => simp [SchedulerMap.mapInsert, SchedulerMap.mapKeys]
  | cons p rest ih =>
    obtain ⟨k2, v2⟩ := p
    by_cases hk : k2 = k
    · subst hk
      simp [SchedulerMap.mapInsert, SchedulerMap.mapKeys]
      tauto
    · simp [SchedulerMap.mapInsert, SchedulerMap.mapKeys, hk] at ih ⊢
      tauto

theorem SchedulerMap.mem_mapKeys_erase (m : List (Int × Bool)) (k t : Int) :
    t ∈ SchedulerMap.mapKeys (SchedulerMap.mapErase m k) ↔
      t ∈ SchedulerMap.mapKeys m ∧ t ≠ k := by
  simp only [SchedulerMap.mapKeys, SchedulerMap.mapErase, List.mem_map,
    List.mem_filter]
  constructor
  · rintro ⟨p, ⟨hp, hne⟩, rfl⟩
    exact ⟨⟨p, hp, rfl⟩, by simpa using hne⟩
  · rintro ⟨⟨p, hp, rfl⟩, hne⟩
    exact ⟨p, ⟨hp, by simpa using hne⟩, rfl⟩

theorem SchedulerMap.mapFind_eq_none_iff (m : List (Int × Bool)) (t : Int) :
    SchedulerMap.mapFind m t = none ↔ t ∉ SchedulerMap.mapKeys m := by
  induction m with
  | nil => simp [SchedulerMap.mapFind, SchedulerMap.mapKeys]
  | cons p rest ih =>
    obtain ⟨k2, v2⟩ := p
    by_cases hk : k2 = t
    · simp [SchedulerMap.mapFind, SchedulerMap.mapKeys, hk]
    · have h1 : SchedulerMap.mapFind ((k2, v2) :: rest) t =
          SchedulerMap.mapFind rest t := by
        simp [SchedulerMap.mapFind, hk]
      have h2 : (t ∈ SchedulerMap.mapKeys ((k2, v2) :: rest)) ↔
          t = k2 ∨ t ∈ SchedulerMap.mapKeys rest := by
        simp [SchedulerMap.mapKeys]
      rw [h1, ih, h2]
      push_neg
      exact ⟨fun h => ⟨fun ht => hk ht.symm, h⟩, fun h => h.2⟩

theorem SchedulerMap.mapIndex_snd_of_mem {m : List (Int × Bool)} {t : Int}
    (h : t ∈ SchedulerMap.mapKeys m) :
    (SchedulerMap.mapIndex m t).2 = m := by
  unfold SchedulerMap.mapIndex
  cases hf : SchedulerMap.mapFind m t with
  | some b => rfl
  | none =>
    exact absurd ((SchedulerMap.mapFind_eq_none_iff m t).mp hf)
      (not_not_intro h)

theorem SchedulerMap.Inv_schedule {s : SchedulerMap.State}
    (h : SchedulerMap.Inv s) (cb : Nat) (due : ℚ) :
    SchedulerMap.Inv (SchedulerMap.Schedule s cb due).1 := by
  obtain ⟨hb, hnd, hk⟩ := h
  cases hclock : s.clock with
  | none =>
    have heq : (SchedulerMap.Schedule s cb due).1 = s := by
      simp [SchedulerMap.Schedule, hclock]
    rw [heq]
    exact ⟨hb, hnd, hk⟩
  | some now =>
    have hs : (SchedulerMap.Schedule s cb due).1 =
        { s with
            nextToken := s.nextToken + 1,
            isCallbackCanceled :=
              SchedulerMap.mapInsert s.isCallbackCanceled s.nextToken false,
            scheduledCallbacks :=
              pqPush ⟨s.nextToken, due, cb⟩ s.scheduledCallbacks } := by
      simp [SchedulerMap.Schedule, hclock]
    rw [hs]
    have hfresh : s.nextToken ∉ tokensOf s.scheduledCallbacks := by
      intro hmem
      simp only [tokensOf, List.mem_map] at hmem
      obtain ⟨e, he, het⟩ := hmem
      have := hb e he
      omega
    refine ⟨?_, ?_, ?_⟩
    · intro e he
      dsimp only at he ⊢
      rcases List.mem_cons.mp (by simpa [pqPush] using he) with rfl | he2
      · dsimp only
        omega
      · have := hb e he2
        omega
    · dsimp only
      simp only [pqPush, tokensOf, List.map_cons]
      exact List.nodup_cons.mpr ⟨hfresh, hnd⟩
    · intro t
      dsimp only
      rw [SchedulerMap.mem_mapKeys_insert]
      simp only [pqPush, tokensOf, List.map_cons, List.mem_cons]
      rw [hk t]
      simp only [tokensOf]
      tauto

theorem SchedulerMap.Inv_cancel {s : SchedulerMap.State}
    (h : SchedulerMap.Inv s) (token : Int) :
    SchedulerMap.Inv (SchedulerMap.Cancel s token) := by
  obtain ⟨hb, hnd, hk⟩ := h
  unfold SchedulerMap.Cancel
  cases hf : SchedulerMap.mapFind s.isCallbackCanceled token with
  | none => exact ⟨hb, hnd, hk⟩
  | some b =>
    have hmem : token ∈ SchedulerMap.mapKeys s.isCallbackCanceled := by
      by_contra hmem
      rw [← SchedulerMap.mapFind_eq_none_iff] at hmem
      rw [hf] at hmem
      cases hmem
    refine ⟨hb, hnd, ?_⟩
    intro t
    dsimp only
    rw [SchedulerMap.mem_mapKeys_insert]
    constructor
    · rintro (ht | rfl)
      · exact (hk t).mp ht
      · exact (hk t).mp hmem
    · intro ht
      exact Or.inl ((hk t).mpr ht)

theorem SchedulerMap.Inv_worker {s s2 : SchedulerMap.State} {act : WorkerAct}
    (h : SchedulerMap.Inv s) (hw : SchedulerMap.Worker s = some (s2, act)) :
    SchedulerMap.Inv s2 := by
  obtain ⟨hb, hnd, hk⟩ := h
  rcases SchedulerMap.Worker_cases_map hw with
    ⟨-, rfl, -⟩ | ⟨-, -, rfl, -⟩ | ⟨e, now, -, htop, -, hbr⟩
  · exact ⟨hb, hnd, hk⟩
  · exact ⟨hb, hnd, hk⟩
  · have hemem : e ∈ s.scheduledCallbacks := pqTop_mem htop
    have hetok : e.token ∈ tokensOf s.scheduledCallbacks := by
      simp only [tokensOf, List.mem_map]
      exact ⟨e, hemem, rfl⟩
    have hkeymem : e.token ∈ SchedulerMap.mapKeys s.isCallbackCanceled :=
      (hk e.token).mpr hetok
    have hidx : (SchedulerMap.mapIndex s.isCallbackCanceled e.token).2 =
        s.isCallbackCanceled := SchedulerMap.mapIndex_snd_of_mem hkeymem
    have hperm := pqTop_pop_perm htop
    have hperm2 : (tokensOf s.scheduledCallbacks).Perm
        (e.token :: tokensOf (pqPop s.scheduledCallbacks)) := by
      simpa [tokensOf] using hperm.map ScheduledCallback.token
    have hnd2 : (e.token :: tokensOf (pqPop s.scheduledCallbacks)).Nodup :=
      (hperm2.nodup_iff).mp hnd
    have hpop : SchedulerMap.Inv
        { s with
            isCallbackCanceled := SchedulerMap.mapErase
              (SchedulerMap.mapIndex s.isCallbackCanceled e.token).2 e.token,
            scheduledCallbacks := pqPop s.scheduledCallbacks } := by
      rw [hidx]
      refine ⟨?_, ?_, ?_⟩
      · intro x hx
        have hxs : x ∈ s.scheduledCallbacks :=
          hperm.mem_iff.mpr (List.mem_cons_of_mem e hx)
        exact hb x hxs
      · exact (List.nodup_cons.mp hnd2).2
      · intro t
        dsimp only
        rw [SchedulerMap.mem_mapKeys_erase]
        constructor
        · rintro ⟨hts, htne⟩
          have hmem2 : t ∈ e.token :: tokensOf (pqPop s.scheduledCallbacks) :=
            hperm2.mem_iff.mp ((hk t).mp hts)
          rcases List.mem_cons.mp hmem2 with rfl | h2
          · exact absurd rfl htne
          · exact h2
        · intro ht
          refine ⟨(hk t).mpr
            (hperm2.mem_iff.mpr (List.mem_cons_of_mem _ ht)), ?_⟩
          intro h3
          exact (List.nodup_cons.mp hnd2).1 (h3 ▸ ht)
    rcases hbr with ⟨-, -, rfl, -⟩ | ⟨-, -, rfl, -⟩ | ⟨-, rfl, -⟩
    · rw [hidx]
      exact ⟨hb, hnd, hk⟩
    · exact hpop
    · exact hpop

theorem SchedulerMap.Reachable_inv {s : SchedulerMap.State}
    (h : SchedulerMap.Reachable s) : SchedulerMap.Inv s := by
  induction h with
  | init =>
    refine ⟨?_, ?_, ?_⟩ <;>
      simp [SchedulerMap.schedulerInit, tokensOf, SchedulerMap.mapKeys]
  | schedule s cb due hr ih => exact SchedulerMap.Inv_schedule ih cb due
  | cancel s t hr ih => exact SchedulerMap.Inv_cancel ih t
  | wakeUp s hr ih => exact ih
  | setClock s c hr ih => exact ⟨ih.1, ih.2.1, ih.2.2⟩
  | workerPass s s2 act hr hw ih => exact SchedulerMap.Inv_worker ih hw

/-- C10: in the map revision, every state reachable from a fresh
scheduler through the public operations (`Schedule`, `Cancel`, `WakeUp`,
`SetClock`) and completed worker passes has the key set of
`isCallbackCanceled` equal to the set of tokens present in the pending
priority queue: `Schedule` inserts into both, the worker's firing and
draining steps erase from both, and `Cancel` only flips the flag of an
existing key. -/
theorem canceled_map_keys_equal_pending_tokens (s : SchedulerMap.State)
    (h : SchedulerMap.Reachable s) :
    ∀ t : Int, t ∈ SchedulerMap.mapKeys s.isCallbackCanceled ↔
      t ∈ tokensOf s.scheduledCallbacks :=
  (SchedulerMap.Reachable_inv h).2.2

/-- Witness for C10 at the state reached by setting a clock and
scheduling once: token 1 is then in both structures. -/
theorem canceled_map_keys_equal_pending_tokens_witness :
    (1 : Int) ∈ SchedulerMap.mapKeys
        (SchedulerMap.Schedule
          (SchedulerMap.SetClock SchedulerMap.schedulerInit (some 0)) 9
          2).1.isCallbackCanceled ↔
      (1 : Int) ∈ tokensOf
        (SchedulerMap.Schedule
          (SchedulerMap.SetClock SchedulerMap.schedulerInit (some 0)) 9
          2).1.scheduledCallbacks :=
  canceled_map_keys_equal_pending_tokens _
    (SchedulerMap.Reachable.schedule _ 9 2
      (SchedulerMap.Reachable.setClock _ (some 0)
        SchedulerMap.Reachable.init)) 1
